import Mathlib

/-!
Verification development for the `ugbt` tool's two core components: the
version-catalog resolver (`src/cmd.go`) and the repository-URL resolver
(the `modrepo` package). Pure functions are translated directly from the
Go source; network effects are represented by explicit oracles mapping
each document request to its outcome.
-/

set_option maxRecDepth 10000

namespace Str

/-!
Character-list implementations of the Go `strings` primitives used by the
source.  The byte-oriented Go operations coincide with these character
operations on ASCII data, which is the domain of every string the source
applies them to (module paths, URLs, version strings and HTML attribute
names).  They are kept structurally recursive so that every definition in
this file evaluates inside the kernel.
-/

/-- `strings.HasPrefix pre s`. -/
def hasPre (pre s : String) : Bool := pre.data.isPrefixOf s.data

/-- `strings.HasSuffix suf s`. -/
def hasSuf (suf s : String) : Bool := suf.data.isSuffixOf s.data

/-- Drop the first `n` characters. -/
def drop (s : String) (n : Nat) : String := String.mk (s.data.drop n)

/-- Drop the last `n` characters. -/
def dropRight (s : String) (n : Nat) : String :=
  String.mk (s.data.take (s.data.length - n))

/-- Simple lower-casing, as `strings.EqualFold` needs for ASCII names. -/
def lower (s : String) : String := String.mk (s.data.map Char.toLower)

/-- `strings.Split(s, "/")`. -/
def splitSlashAux (acc : List Char) : List Char → List String
  | [] => [String.mk acc.reverse]
  | c :: rest =>
    if c = '/' then String.mk acc.reverse :: splitSlashAux [] rest
    else splitSlashAux (c :: acc) rest

/-- `strings.Split(s, "/")`. -/
def splitSlash (s : String) : List String := splitSlashAux [] s.data

/-- Split at whitespace characters (empty pieces included). -/
def splitWsAux (acc : List Char) : List Char → List String
  | [] => [String.mk acc.reverse]
  | c :: rest =>
    if c.isWhitespace then String.mk acc.reverse :: splitWsAux [] rest
    else splitWsAux (c :: acc) rest

/-- `strings.Fields`: whitespace-separated fields (no empty pieces). -/
def fields (s : String) : List String :=
  (splitWsAux [] s.data).filter (fun f => f ≠ "")

/-- Go's string `<`: lexicographic comparison by code point (byte order on
the ASCII data at hand). -/
def ltb : List Char → List Char → Bool
  | [], [] => false
  | [], _ :: _ => true
  | _ :: _, [] => false
  | c :: cs, d :: ds =>
    if c.toNat < d.toNat then true
    else if d.toNat < c.toNat then false
    else ltb cs ds

end Str

namespace Semver

/-- Modelled from the spec: "Semantic-version comparison: ordering of version
strings by major/minor/patch and pre-release precedence rules".  The source
delegates this comparison to the external library `golang.org/x/mod/semver`
(not part of this repository's files); the definitions in this namespace are
a faithful port of that library's `Compare`, `parse`, `parseInt`,
`parsePrerelease`, `parseBuild`, `compareInt` and `comparePrerelease`.
A parsed version: the numeric fields are kept as digit strings, as the
library does, and the pre-release part is the list of dot-separated
identifiers (`none` when the version has no pre-release part). -/
structure V where
  major : String
  minor : String
  patch : String
  pre : Option (List String)
  deriving DecidableEq, Repr

/-- Port of the library's `isNum`: true when every character is a digit
(vacuously true on the empty string, as in the source). -/
def isNumStr (s : String) : Bool := s.data.all Char.isDigit

/-- Port of the library's `isBadNum`: an all-digit identifier longer than one
character starting with `0`. -/
def isBadNum (s : String) : Bool :=
  isNumStr s && decide (1 < s.length) && (s.data.headD '0' == '0')

/-- Port of the library's `isIdentChar`: ASCII letters, digits and `-`. -/
def identChar (c : Char) : Bool := c.isAlphanum || c == '-'

/-- Validity of one accumulated identifier (accumulated in reverse): it must
be non-empty, and for the pre-release part (`checkNum := true`) it must not be
a bad number. -/
def identOk (checkNum : Bool) (cur : List Char) : Bool :=
  !cur.isEmpty && (!checkNum || !isBadNum (String.mk cur.reverse))

/-- Port of the identifier scan shared by the library's `parsePrerelease`
(`stopPlus := true`, `checkNum := true`) and `parseBuild` (`stopPlus := false`,
`checkNum := false`): reads dot-separated identifiers, stopping at `+` only
in the pre-release case, and fails on any other non-identifier character. -/
def scanIdents (stopPlus checkNum : Bool) (cur : List Char) :
    List Char → Option (List String × List Char)
  | [] => if identOk checkNum cur then some ([String.mk cur.reverse], []) else none
  | c :: rest =>
    if stopPlus ∧ c = '+' then
      if identOk checkNum cur then some ([String.mk cur.reverse], c :: rest) else none
    else if c = '.' then
      if identOk checkNum cur then
        match scanIdents stopPlus checkNum [] rest with
        | some (ids, r) => some (String.mk cur.reverse :: ids, r)
        | none => none
      else none
    else if identChar c then scanIdents stopPlus checkNum (c :: cur) rest
    else none

/-- Port of the library's `parseInt`: a leading run of digits with no leading
zero (unless the number is exactly `0`), returning it and the rest. -/
def parseNum : List Char → Option (String × List Char)
  | [] => none
  | c :: rest =>
    if ¬ c.isDigit then none
    else
      let ds := rest.takeWhile Char.isDigit
      if c = '0' ∧ ds ≠ [] then none
      else some (String.mk (c :: ds), rest.dropWhile Char.isDigit)

/-- Port of the library's `parse`: `v` + major, optional `.minor`, optional
`.patch`, optional `-pre` and `+build` parts; absent minor/patch default
to `0`. Returns `none` exactly when the library reports `!ok`. -/
def parseV (s : String) : Option V :=
  match s.data with
  | [] => none
  | c :: rest =>
    if c ≠ 'v' then none
    else match parseNum rest with
      | none => none
      | some (maj, r1) =>
        match r1 with
        | [] => some ⟨maj, "0", "0", none⟩
        | c1 :: r2 =>
          if c1 ≠ '.' then none
          else match parseNum r2 with
            | none => none
            | some (mn, r3) =>
              match r3 with
              | [] => some ⟨maj, mn, "0", none⟩
              | c2 :: r4 =>
                if c2 ≠ '.' then none
                else match parseNum r4 with
                  | none => none
                  | some (pt, r5) =>
                    match r5 with
                    | [] => some ⟨maj, mn, pt, none⟩
                    | c3 :: r6 =>
                      if c3 = '-' then
                        match scanIdents true true [] r6 with
                        | none => none
                        | some (ids, r7) =>
                          match r7 with
                          | [] => some ⟨maj, mn, pt, some ids⟩
                          | c4 :: r8 =>
                            if c4 = '+' then
                              match scanIdents false false [] r8 with
                              | none => none
                              | some (_, r9) =>
                                if r9 = [] then some ⟨maj, mn, pt, some ids⟩ else none
                            else none
                      else if c3 = '+' then
                        match scanIdents false false [] r6 with
                        | none => none
                        | some (_, r9) =>
                          if r9 = [] then some ⟨maj, mn, pt, none⟩ else none
                      else none

/-- Port of the library's `compareInt` on decimal digit strings: shorter is
smaller, same length compares lexicographically. -/
def cmpNum (x y : String) : Int :=
  if x = y then 0
  else if x.length < y.length then -1
  else if y.length < x.length then 1
  else if Str.ltb x.data y.data then -1 else 1

/-- Port of one identifier comparison step of the library's
`comparePrerelease`: numeric identifiers sort below alphanumeric ones;
numeric ones compare as numbers, others lexicographically. -/
def cmpIdent (x y : String) : Int :=
  if x = y then 0
  else if isNumStr x ≠ isNumStr y then (if isNumStr x then -1 else 1)
  else if isNumStr x then
    (if x.length < y.length then -1
     else if y.length < x.length then 1
     else if Str.ltb x.data y.data then -1 else 1)
  else (if Str.ltb x.data y.data then -1 else 1)

/-- Identifier-list comparison of the library's `comparePrerelease` loop:
identifier by identifier, a strict prefix sorting first. -/
def cmpIdents : List String → List String → Int
  | [], [] => 0
  | [], _ :: _ => -1
  | _ :: _, [] => 1
  | x :: xs, y :: ys => if x = y then cmpIdents xs ys else cmpIdent x y

/-- Port of the library's `comparePrerelease`: a version without a
pre-release part sorts above any version with one. -/
def cmpPre : Option (List String) → Option (List String) → Int
  | none, none => 0
  | none, some _ => 1
  | some _, none => -1
  | some xs, some ys => cmpIdents xs ys

/-- Comparison of two parsed versions: major, then minor, then patch, then
pre-release precedence, mirroring the tail of the library's `Compare`. -/
def compareParsed (pv pw : V) : Int :=
  if cmpNum pv.major pw.major ≠ 0 then cmpNum pv.major pw.major
  else if cmpNum pv.minor pw.minor ≠ 0 then cmpNum pv.minor pw.minor
  else if cmpNum pv.patch pw.patch ≠ 0 then cmpNum pv.patch pw.patch
  else cmpPre pv.pre pw.pre

/-- Port of the library's `Compare`: invalid versions sort below all valid
ones and equal to each other; valid ones compare by major, minor, patch and
then pre-release precedence. -/
def compare (v w : String) : Int :=
  match parseV v, parseV w with
  | none, none => 0
  | none, some _ => -1
  | some _, none => 1
  | some pv, some pw => compareParsed pv pw

end Semver

namespace Ugbt

/-- Port of `replacePrefix` from `src/cmd.go`: if `s` starts with `old`,
replace that leading occurrence by `new`, otherwise return `s` unchanged. -/
def replacePre (s old new : String) : String :=
  if Str.hasPre old s then new ++ Str.drop s old.length else s

/-- Port of `semverCompare` from `src/cmd.go`: semantic-version comparison
after normalising a literal `go` front part on either operand to `v`. -/
def semverCompare (v w : String) : Int :=
  Semver.compare (replacePre v "go" "v") (replacePre w "go" "v")

/-- Port of the `info` struct of `src/cmd.go`.  `Time` is the publication
timestamp; it is abstracted to a natural number since only its equality
matters to the logic under study.  The two unexported fields are `false`
and `""` on every record decoded from a proxy's `.info` JSON document,
because Go's JSON decoder cannot set unexported fields. -/
structure Info where
  Version : String
  Time : Nat
  isRetracted : Bool
  retractionRationale : String
  deriving DecidableEq, Repr

/-- The fields of `modfile.Retract` read by `src/cmd.go` (lines 643-650):
the inclusive interval bounds and the rationale string. -/
structure Retract where
  Low : String
  High : String
  Rationale : String
  deriving DecidableEq, Repr

/-- One insertion step of the descending sort used by `unique`
(`src/cmd.go` lines 737-739): `sort.Slice` with
`semver.Compare(versions[i].Version, versions[j].Version) > 0`.
The source's sort is unstable, hence unspecified on ties; it is modelled
by insertion sort, which yields one particular sorted permutation. -/
def insertDesc (x : Info) : List Info → List Info
  | [] => [x]
  | y :: ys =>
    if 0 < Semver.compare x.Version y.Version then x :: y :: ys
    else y :: insertDesc x ys

/-- The descending-by-semver sort of `unique` (see `insertDesc`). -/
def sortDesc (l : List Info) : List Info := l.foldr insertDesc []

/-- The compaction loop of `unique` (`src/cmd.go` lines 740-750): walk the
sorted slice keeping the first record of every run, dropping a record only
when it is equal — as a whole struct, all four fields — to the most recently
kept record. -/
def dedupGo (last : Info) : List Info → List Info
  | [] => []
  | y :: ys => if y = last then dedupGo last ys else y :: dedupGo y ys

/-- Adjacent deduplication by whole-record equality (see `dedupGo`). -/
def dedupAdj : List Info → List Info
  | [] => []
  | x :: xs => x :: dedupGo x xs

/-- Port of `unique` from `src/cmd.go` (lines 733-751): sort descending by
`semver.Compare` on `Version`, then drop records equal to the previously
kept record.  (The source returns inputs of length < 2 unchanged, which
coincides with the general path.) -/
def unique (versions : List Info) : List Info := dedupAdj (sortDesc versions)

/-- One step of the retraction-annotation loop of `availableVersions`
(`src/cmd.go` lines 643-650): if the record's `Version` lies in the closed
interval `[r.Low, r.High]` under `semver.Compare`, mark it retracted and
overwrite the rationale with this range's rationale. -/
def retractStep (acc : Info) (r : Retract) : Info :=
  if 0 ≤ Semver.compare acc.Version r.Low ∧ Semver.compare acc.Version r.High ≤ 0 then
    { acc with isRetracted := true, retractionRationale := r.Rationale }
  else acc

/-- The inner loop of the retraction annotation: apply every discovered
range, in discovery order, to one record. -/
def markOne (retractions : List Retract) (v : Info) : Info :=
  retractions.foldl retractStep v

/-- The outer loop of the retraction annotation: annotate every record. -/
def markList (retractions : List Retract) (versions : List Info) : List Info :=
  versions.map (markOne retractions)

instance {ε α : Type} [DecidableEq ε] [DecidableEq α] : DecidableEq (Except ε α) := fun x y =>
  match x, y with
  | .error a, .error b =>
    if h : a = b then isTrue (by rw [h]) else isFalse (fun hh => h (Except.error.inj hh))
  | .error _, .ok _ => isFalse (fun hh => Except.noConfusion hh)
  | .ok _, .error _ => isFalse (fun hh => Except.noConfusion hh)
  | .ok a, .ok b =>
    if h : a = b then isTrue (by rw [h]) else isFalse (fun hh => h (Except.ok.inj hh))

/-- The outcome of one HTTP document fetch, as seen by the resolver: either
a transport error (`cli.Do` returned an error), or a response carrying an
HTTP status code and a body.  The body is represented by what it parses to:
`Except.error` when the decoder (JSON or modfile) would reject it. -/
inductive Fetch (α : Type) where
  | transportError : Fetch α
  | response (status : Nat) (body : Except String α) : Fetch α
  deriving DecidableEq

/-- The outcome of the `@v/list` fetch: the body is the list of scanned
lines — the source scans whatever body came back, with no decoder that
could fail and no status check. -/
inductive RawFetch where
  | transportError : RawFetch
  | response (status : Nat) (lines : List String) : RawFetch
  deriving DecidableEq, Repr

/-- The `{Version, Time}` JSON document served at `@v/<version>.info`.
Only these two exported fields exist in the decoded struct. -/
structure ParsedInfo where
  Version : String
  Time : Nat
  deriving DecidableEq, Repr

/-- The network oracle: for each proxy mirror (and version), the outcome of
fetching the `@v/list` document, the `.info` document, and the `.mod`
document (the latter represented by its parsed retraction ranges). -/
structure Oracle where
  list : String → RawFetch
  infoDoc : String → String → Fetch ParsedInfo
  modDoc : String → String → Fetch (List Retract)

/-- The error kinds produced by the catalog resolver. -/
inductive Err where
  | network : Err
  | badStatus (status : Nat) : Err
  | decode (msg : String) : Err
  deriving DecidableEq, Repr

/-- Port of `get` from `src/cmd.go` (lines 700-721) composed with the
decoding done by its callers `info` and `retractions`: a transport error is
fatal; any non-200 status is fatal (`statusError`); a body the decoder
rejects is fatal. -/
def getDoc {α : Type} : Fetch α → Except Err α
  | .transportError => .error .network
  | .response st body =>
    if st ≠ 200 then .error (.badStatus st)
    else
      match body with
      | .error e => .error (.decode e)
      | .ok a => .ok a

/-- A fetched document is good exactly when `getDoc` succeeds on it:
a 200 response whose body decodes. -/
def isGood {α : Type} : Fetch α → Bool
  | .transportError => false
  | .response st body =>
    st == 200 && (match body with | .ok _ => true | .error _ => false)

/-- The per-mirror version filter of `availableVersions` (`src/cmd.go`
lines 619-624): every line of the `@v/list` body is kept iff `all` is set
or its `semverCompare` against the current version is non-negative. -/
def keptVersions (all : Bool) (current : String) (lines : List String) : List String :=
  lines.filter (fun v => all || decide (0 ≤ semverCompare v current))

/-- The `@v/list` fetch of `availableVersions` (`src/cmd.go` lines 607-615):
a transport error aborts the call, but — unlike `get` — the HTTP status code
is never inspected, and the body is line-scanned whatever the status was. -/
def fetchList (o : Oracle) (p : String) : Except Err (List String) :=
  match o.list p with
  | .transportError => .error .network
  | .response _ lines => .ok lines

/-- The inner loop of `availableVersions` (`src/cmd.go` lines 625-640): for
each retained version, fetch and decode its `.info` document and then its
`.mod` document; either failure aborts.  Accumulates the decoded records
(with the unexported fields at their zero values) and the concatenated
retraction ranges, in source order. -/
def perVersion (o : Oracle) (p : String) : List String → Except Err (List Info × List Retract)
  | [] => .ok ([], [])
  | v :: vs =>
    match getDoc (o.infoDoc p v) with
    | .error e => .error e
    | .ok i =>
      match getDoc (o.modDoc p v) with
      | .error e => .error e
      | .ok r =>
        match perVersion o p vs with
        | .error e => .error e
        | .ok (is, rs) => .ok (⟨i.Version, i.Time, false, ""⟩ :: is, r ++ rs)

/-- The proxy loop of `availableVersions` (`src/cmd.go` lines 601-641). -/
def fetchProxies (o : Oracle) (current : String) (all : Bool) :
    List String → Except Err (List Info × List Retract)
  | [] => .ok ([], [])
  | p :: ps =>
    match fetchList o p with
    | .error e => .error e
    | .ok lines =>
      match perVersion o p (keptVersions all current lines) with
      | .error e => .error e
      | .ok (vs, rs) =>
        match fetchProxies o current all ps with
        | .error e => .error e
        | .ok (vs2, rs2) => .ok (vs ++ vs2, rs ++ rs2)

/-- Port of the general (non-`std`) case of `availableVersions`
(`src/cmd.go` lines 581-652): drain every mirror, then deduplicate with
`unique` and annotate retractions.  The module path is taken already escaped
and the proxy base URLs already parsed (the source's `module.EscapePath` and
`url.Parse` steps operate on caller-supplied configuration). -/
def availableVersions (o : Oracle) (proxies : List String) (current : String) (all : Bool) :
    Except Err (List Info) :=
  match fetchProxies o current all proxies with
  | .error e => .error e
  | .ok (vs, rs) => .ok (markList rs (unique vs))

/-- An HTTP request as constructed by the source: method, URL, and whether
the request was built with the caller's cancellable context
(`http.NewRequestWithContext`) or with no context (`http.NewRequest`).
A request not bound to the caller's context is unaffected by the caller's
deadline. -/
structure HTTPRequest where
  method : String
  url : String
  boundToCallerCtx : Bool
  deriving DecidableEq, Repr

/-- `http.NewRequest` (no context). -/
def newRequest (method url : String) : HTTPRequest := ⟨method, url, false⟩

/-- `http.NewRequestWithContext(ctx, ...)` with the caller's context. -/
def newRequestWithCtx (method url : String) : HTTPRequest := ⟨method, url, true⟩

/-- The request for a mirror's `@v/list` document, as built at
`src/cmd.go` line 607: `http.NewRequest("GET", u.String(), nil)` — without
the caller's context. -/
def listRequest (url : String) : HTTPRequest := newRequest "GET" url

/-- The request built by `get` (`src/cmd.go` line 701):
`http.NewRequestWithContext(ctx, "GET", url, nil)`.  Used for the `.info`,
`.mod` and standard-library index fetches. -/
def getRequest (url : String) : HTTPRequest := newRequestWithCtx "GET" url

/-- The request built by `doURL` of the `modrepo` package (line 348 of its
source): `http.NewRequestWithContext(ctx, method, url, nil)`.  Used for both
metadata landing-page attempts. -/
def doURLRequest (method url : String) : HTTPRequest := newRequestWithCtx method url

/-- `v` lies within the closed interval `[r.Low, r.High]` under the
semantic-version comparison (the condition of `src/cmd.go` line 645). -/
def containsB (v : String) (r : Retract) : Bool :=
  decide (0 ≤ Semver.compare v r.Low ∧ Semver.compare v r.High ≤ 0)

/-- The descending order used by `unique`: the record on the left compares
greater than or equal under `semver.Compare` of `Version`. -/
def descR (a b : Info) : Prop := 0 ≤ Semver.compare a.Version b.Version

/-- Records decoded from `.info` documents always carry the zero values of
the two unexported fields. -/
def defaultFlags (x : Info) : Prop :=
  x.isRetracted = false ∧ x.retractionRationale = ""


end Ugbt

namespace Modrepo

/-- Regular-expression syntax sufficient for the pattern table of the
`modrepo` package (its `patterns` variable).  Character classes are
predicates on characters; `group` marks the extent of the single `repo`
capture group each pattern declares (the unnamed groups of the source
patterns do not affect what is matched and are not recorded); `eol` is the
`$` end-of-text assertion. -/
inductive Re where
  | eps : Re
  | cls : (Char → Bool) → Re
  | seq : Re → Re → Re
  | alt : Re → Re → Re
  | star : Bool → Re → Re
  | group : Re → Re
  | eol : Re

/-- Backtracking matcher with leftmost-first (Perl-style) semantics, the
submatch semantics Go's `regexp` package implements.  `cap` carries the
`repo` capture; the continuation `k` receives the rest of the input and the
capture.  Greedy `star true` explores longer iteration counts first,
non-greedy `star false` shorter ones; an iteration must consume input.
`fuel` bounds the recursion depth; it is chosen large enough for the
inputs considered (exhaustion yields `none`). -/
def runRe : Nat → Re → List Char → Option (List Char) →
    (List Char → Option (List Char) → Option (Option (List Char))) →
    Option (Option (List Char))
  | 0, _, _, _, _ => none
  | fuel+1, re, s, cap, k =>
    match re with
    | .eps => k s cap
    | .eol => match s with | [] => k [] cap | _ :: _ => none
    | .cls p =>
      match s with
      | [] => none
      | c :: rest => if p c then k rest cap else none
    | .seq a b => runRe fuel a s cap (fun s1 c1 => runRe fuel b s1 c1 k)
    | .alt a b =>
      match runRe fuel a s cap k with
      | some r => some r
      | none => runRe fuel b s cap k
    | .star greedy a =>
      if greedy then
        match runRe fuel a s cap
            (fun s1 c1 =>
              if s1.length < s.length then runRe fuel (.star true a) s1 c1 k else none) with
        | some r => some r
        | none => k s cap
      else
        match k s cap with
        | some r => some r
        | none =>
          runRe fuel a s cap
            (fun s1 c1 =>
              if s1.length < s.length then runRe fuel (.star false a) s1 c1 k else none)
    | .group a =>
      runRe fuel a s cap (fun s1 _ => k s1 (some (s.take (s.length - s1.length))))

/-- Fuel bound for one match attempt. -/
def matchFuel (s : List Char) : Nat := (s.length + 2) * 4000

/-- One anchored match attempt at the start of `s`; the match may end
anywhere.  Returns `none` when there is no match, `some cap` when there is
one with capture `cap`. -/
def tryAt (re : Re) (s : List Char) : Option (Option (List Char)) :=
  runRe (matchFuel s) re s none (fun _ cap => some cap)

/-- Unanchored leftmost search: the first start position with a match wins,
as in Go's `regexp`. -/
def searchRe (re : Re) : List Char → Option (Option (List Char))
  | [] => tryAt re []
  | c :: rest =>
    match tryAt re (c :: rest) with
    | some cap => some cap
    | none => searchRe re rest

/-- A literal character. -/
def lit (c : Char) : Re := .cls (fun x => x == c)

/-- A literal string. -/
def strRe (s : String) : Re := s.data.foldr (fun c acc => Re.seq (lit c) acc) Re.eps

/-- `+` (one or more), greedy or non-greedy. -/
def rplus (greedy : Bool) (a : Re) : Re := .seq a (.star greedy a)

/-- Greedy `?` (zero or one). -/
def ropt (a : Re) : Re := .alt a .eps

/-- Sequence of several expressions. -/
def cat (l : List Re) : Re := l.foldr Re.seq Re.eps

/-- The class `[a-z0-9A-Z_.\-]` / `[A-Za-z0-9_.\-]` of the source patterns. -/
def wordc (c : Char) : Bool := c.isAlphanum || c == '_' || c == '.' || c == '-'

/-- The class `[a-z0-9A-Z.-]` of the source patterns. -/
def hostc (c : Char) : Bool := c.isAlphanum || c == '.' || c == '-'

/-- The class `[a-z0-9.\-]` of the source's catch-all pattern. -/
def lhostc (c : Char) : Bool := c.isLower || c.isDigit || c == '.' || c == '-'

/-- The class `[^.]`. -/
def notDot (c : Char) : Bool := c != '.'

/-- The class `.` (any character but newline). -/
def anyc (c : Char) : Bool := c != '\n'

/-- The class `[0-9]`. -/
def digitc (c : Char) : Bool := c.isDigit

/-- One rule of the pattern table: whether the pattern is `^`-anchored, and
its expression (including the `repo` group). -/
structure Pat where
  anchored : Bool
  re : Re

/-- A two-segment forge rule body: `site/[seg]+/[seg]+` with the `repo`
group around the whole. -/
def forge2 (site : String) : Re :=
  .group (cat [strRe site, rplus true (.cls wordc), lit '/', rplus true (.cls wordc)])

/-- As `forge2` but followed by `(\.git|$)` outside the group. -/
def forge2Git (site : String) : Re :=
  .seq (forge2 site) (.alt (strRe ".git") .eol)

/-- A `site.[host]+/[seg]+/[seg]+` rule body followed by `(\.git|$)`. -/
def forgeDotGit (site : String) : Re :=
  .seq
    (.group (cat [strRe site, rplus true (.cls hostc), lit '/',
      rplus true (.cls wordc), lit '/', rplus true (.cls wordc)]))
    (.alt (strRe ".git") .eol)

/-- Port of the `patterns` table of the `modrepo` package (lines 162-253 of
its source), in declaration order.  Each entry is the translation of the
uncompiled regexp string of the corresponding rule. -/
def patterns : List Pat :=
  [ -- `^(?P<repo>github\.com/[a-z0-9A-Z_.\-]+/[a-z0-9A-Z_.\-]+)`
    ⟨true, forge2 "github.com/"⟩,
    -- `^(?P<repo>github\.[a-z0-9A-Z.-]+/[a-z0-9A-Z_.\-]+/[a-z0-9A-Z_.\-]+)(\.git|$)`
    ⟨true, forgeDotGit "github."⟩,
    -- `^(?P<repo>bitbucket\.org/[a-z0-9A-Z_.\-]+/[a-z0-9A-Z_.\-]+)`
    ⟨true, forge2 "bitbucket.org/"⟩,
    -- `^(?P<repo>gitlab\.com/[a-z0-9A-Z_.\-]+/[a-z0-9A-Z_.\-]+)`
    ⟨true, forge2 "gitlab.com/"⟩,
    -- `^(?P<repo>gitlab\.[a-z0-9A-Z.-]+/[a-z0-9A-Z_.\-]+/[a-z0-9A-Z_.\-]+)(\.git|$)`
    ⟨true, forgeDotGit "gitlab."⟩,
    -- `^(?P<repo>gitee\.com/[a-z0-9A-Z_.\-]+/[a-z0-9A-Z_.\-]+)(\.git|$)`
    ⟨true, forge2Git "gitee.com/"⟩,
    -- `^(?P<repo>git\.sr\.ht/~[a-z0-9A-Z_.\-]+/[a-z0-9A-Z_.\-]+)`
    ⟨true, .group (cat [strRe "git.sr.ht/~", rplus true (.cls wordc), lit '/',
      rplus true (.cls wordc)])⟩,
    -- `^(?P<repo>git\.fd\.io/[a-z0-9A-Z_.\-]+)`
    ⟨true, .group (cat [strRe "git.fd.io/", rplus true (.cls wordc)])⟩,
    -- `^(?P<repo>git\.pirl\.io/[a-z0-9A-Z_.\-]+/[a-z0-9A-Z_.\-]+)`
    ⟨true, forge2 "git.pirl.io/"⟩,
    -- `^(?P<repo>gitea\.com/[a-z0-9A-Z_.\-]+/[a-z0-9A-Z_.\-]+)(\.git|$)`
    ⟨true, forge2Git "gitea.com/"⟩,
    -- `^(?P<repo>gitea\.[a-z0-9A-Z.-]+/[a-z0-9A-Z_.\-]+/[a-z0-9A-Z_.\-]+)(\.git|$)`
    ⟨true, forgeDotGit "gitea."⟩,
    -- `^(?P<repo>go\.isomorphicgo\.org/[a-z0-9A-Z_.\-]+/[a-z0-9A-Z_.\-]+)(\.git|$)`
    ⟨true, forge2Git "go.isomorphicgo.org/"⟩,
    -- `^(?P<repo>git\.openprivacy\.ca/[a-z0-9A-Z_.\-]+/[a-z0-9A-Z_.\-]+)(\.git|$)`
    ⟨true, forge2Git "git.openprivacy.ca/"⟩,
    -- `^(?P<repo>gogs\.[a-z0-9A-Z.-]+/[a-z0-9A-Z_.\-]+/[a-z0-9A-Z_.\-]+)(\.git|$)`
    ⟨true, forgeDotGit "gogs."⟩,
    -- `^(?P<repo>dmitri\.shuralyov\.com\/.+)$`
    ⟨true, .seq (.group (cat [strRe "dmitri.shuralyov.com/", rplus true (.cls anyc)])) .eol⟩,
    -- `^(?P<repo>blitiri\.com\.ar/go/.+)$`
    ⟨true, .seq (.group (cat [strRe "blitiri.com.ar/go/", rplus true (.cls anyc)])) .eol⟩,
    -- `^(?P<repo>[^.]+\.googlesource\.com/[^.]+)(\.git|$)`
    ⟨true, .seq (.group (cat [rplus true (.cls notDot), strRe ".googlesource.com/",
      rplus true (.cls notDot)])) (.alt (strRe ".git") .eol)⟩,
    -- `^(?P<repo>git\.apache\.org/[^.]+)(\.git|$)`
    ⟨true, .seq (.group (cat [strRe "git.apache.org/", rplus true (.cls notDot)]))
      (.alt (strRe ".git") .eol)⟩,
    -- `(?P<repo>([a-z0-9.\-]+\.)+[a-z0-9.\-]+(:[0-9]+)?(/~?[A-Za-z0-9_.\-]+)+?)\.(bzr|fossil|git|hg|svn)`
    ⟨false, .seq
      (.group (cat [
        rplus true (.seq (rplus true (.cls lhostc)) (lit '.')),
        rplus true (.cls lhostc),
        ropt (.seq (lit ':') (rplus true (.cls digitc))),
        rplus false (cat [lit '/', ropt (lit '~'), rplus true (.cls wordc)])]))
      (.seq (lit '.')
        (.alt (strRe "bzr") (.alt (strRe "fossil") (.alt (strRe "git")
          (.alt (strRe "hg") (strRe "svn"))))))⟩ ]

/-- Run one pattern against a string, producing the `repo` submatch, as
`pat.re.FindStringSubmatch` does for the source's rules. -/
def matchPat (p : Pat) (s : List Char) : Option (List Char) :=
  match (if p.anchored then tryAt p.re s else searchRe p.re s) with
  | some (some cap) => some cap
  | some none => none
  | none => none

/-- `strings.Replace(s, pat, rep, 1)` restricted to one occurrence: split
around the first occurrence of `pat`. -/
def splitAtSub (pat : List Char) : List Char → Option (List Char × List Char)
  | [] => if pat = [] then some ([], []) else none
  | c :: rest =>
    if pat.isPrefixOf (c :: rest) then some ([], (c :: rest).drop pat.length)
    else
      match splitAtSub pat rest with
      | some (pre, post) => some (c :: pre, post)
      | none => none

/-- `strings.Replace(s, pat, rep, 1)`. -/
def replaceFirst (s pat rep : String) : String :=
  match splitAtSub pat.data s.data with
  | some (pre, post) => String.mk (pre ++ rep.data ++ post)
  | none => s

/-- The two special-case rewrites inside `matchStatic` (lines 143-152 of the
`modrepo` source): the `git.apache.org` and `blitiri.com.ar` repo fixups. -/
def specialCase (repo : String) : String :=
  let repo2 :=
    if Str.hasPre "git.apache.org/" repo then
      replaceFirst repo "git.apache.org/" "github.com/apache/"
    else repo
  if Str.hasPre "blitiri.com.ar/" repo2 then replaceFirst repo2 "/go/" "/git/r/" else repo2

/-- The pattern loop of `matchStatic` (lines 129-157): try each rule in
order, return the (rewritten) `repo` submatch of the first rule that
matches, together with the rule's index (standing for the rule's issues-URL
function).  `none` models the source's "not found" error, in which case the
issues-URL function is the identity (`noop`). -/
def matchStaticIdxAux : List Pat → Nat → List Char → Option (String × Nat)
  | [], _, _ => none
  | p :: ps, i, s =>
    match matchPat p s with
    | some cap => some (specialCase (String.mk cap), i)
    | none => matchStaticIdxAux ps (i+1) s

/-- `matchStatic` of the `modrepo` package, indexed form (see
`matchStaticIdxAux`). -/
def matchStaticIdx (s : String) : Option (String × Nat) :=
  matchStaticIdxAux patterns 0 s.data

/-- The issues-URL function of rule `i` of the pattern table, applied to a
repo string (the `issues` closures of the source's `patterns` entries). -/
def patIssues (i : Nat) (repo : String) : String :=
  if i = 0 ∨ i = 1 ∨ i = 2 ∨ i = 5 ∨ i = 9 ∨ i = 10 ∨ i = 11 ∨ i = 12 then repo ++ "/issues"
  else if i = 3 ∨ i = 4 then repo ++ "/-/issues"
  else if i = 6 then replaceFirst repo "git.sr.ht" "todo.sr.ht"
  else if i = 14 then repo ++ "$issues"
  else if i = 15 then "mailto:albertito@blitiri.com.ar"
  else repo

/-- The issues-URL function produced by resolution: the matched rule's
function, or the identity (`noop`) when no rule matched. -/
def issuesOf : Option Nat → String → String
  | none, r => r
  | some i, r => patIssues i r

/-- Port of `trimVCSSuffix` (lines 283-291 of the `modrepo` source): remove
a trailing `.git` only for the two providers known to redirect cleanly. -/
def trimVCSSuffix (repoURL : String) : String :=
  if ¬ (Str.hasSuf ".git" repoURL) then repoURL
  else if Str.hasPre "https://github.com/" repoURL || Str.hasPre "https://gitlab.com/" repoURL then
    Str.dropRight repoURL 4
  else repoURL

/-- Port of `removeHTTPScheme` (lines 297-304). -/
def removeHTTPScheme (url : String) : String :=
  if Str.hasPre "https://" url then Str.drop url 8
  else if Str.hasPre "http://" url then Str.drop url 7
  else url

/-- `strings.TrimSuffix(s, "/")` as used at line 51 of the source. -/
def dropTrailingSlash (s : String) : String :=
  if Str.hasSuf "/" s then Str.dropRight s 1 else s

/-- `strings.TrimPrefix`. -/
def dropLeading (s pre : String) : String :=
  if Str.hasPre pre s then Str.drop s pre.length else s

def goSourceRepoURL : String := "https://cs.opensource.google/go/go"

def goIssuesURL : String := "https://github.com/golang/go/issues"

/-- The set `csNonXRepos` of the source. -/
def csNonXRepos : List String := ["dl", "proposal", "vscode-go"]

/-- The set `csXRepos` of the source. -/
def csXRepos : List String :=
  ["x/arch", "x/benchmarks", "x/blog", "x/build", "x/crypto", "x/debug", "x/example",
   "x/exp", "x/image", "x/mobile", "x/mod", "x/net", "x/oauth2", "x/perf", "x/pkgsite",
   "x/playground", "x/review", "x/sync", "x/sys", "x/talks", "x/term", "x/text",
   "x/time", "x/tools", "x/tour", "x/vgo", "x/website", "x/xerrors"]

/-- The first-two-segments key computed by `adjustGoRepoInfo` (lines
107-115): strip `golang.org/`, then keep the first two `/`-separated parts
when there are at least two. -/
def csSuffix (modulePath : String) : String :=
  let s0 := dropLeading modulePath "golang.org/"
  let parts := Str.splitSlash s0
  if 2 ≤ parts.length then (parts.headD "") ++ "/" ++ (parts[1]?.getD "") else s0

/-- Whether the path's first two segments name a known
`cs.opensource.google` mirror (the membership tests of lines 116-122). -/
def csKnownMirror (modulePath : String) : Bool :=
  if Str.hasPre "x/" (csSuffix modulePath) then csXRepos.contains (csSuffix modulePath)
  else csNonXRepos.contains (csSuffix modulePath)

/-- Port of `adjustGoRepoInfo` (lines 106-125): for a known mirror, rewrite
both URLs; otherwise return `(repo, repo)`. -/
def adjustGoRepoInfo (repo modulePath : String) : String × String :=
  if Str.hasPre "x/" (csSuffix modulePath) then
    if ¬ csXRepos.contains (csSuffix modulePath) then (repo, repo)
    else ("https://cs.opensource.google/go/" ++ csSuffix modulePath, goIssuesURL)
  else if ¬ csNonXRepos.contains (csSuffix modulePath) then (repo, repo)
  else ("https://cs.opensource.google/go/" ++ csSuffix modulePath, goIssuesURL)

/-- The result of a successful metadata scan: the source's `sourceMeta`
struct (`repoRoot` is its `repoRootPrefix` field). -/
structure SourceMeta where
  repoRoot : String
  repoURL : String
  deriving DecidableEq, Repr

/-- The static-or-metadata resolution core of `URL` (lines 45-55 of the
`modrepo` source): on a static match, the rewritten `https://` repo URL
(through `trimVCSSuffix`) and the matched rule's index; otherwise consult
the metadata oracle `o` (the outcome of `fetchMeta`), take its repo URL
without a trailing slash, and re-match the scheme-stripped URL against the
table solely for the issues function (ignoring a failed re-match, as the
source does with `_, bugsFor, _ = matchStatic(...)`). -/
def resolveCore (o : String → Except String SourceMeta) (mod : String) :
    Except String (String × Option Nat) :=
  match matchStaticIdx mod with
  | some (r, i) => .ok (trimVCSSuffix ("https://" ++ r), some i)
  | none =>
    match o mod with
    | .error e => .error e
    | .ok meta =>
      .ok (dropTrailingSlash meta.repoURL,
        (matchStaticIdx (removeHTTPScheme meta.repoURL)).map Prod.snd)

/-- Port of `URL` (lines 30-61 of the `modrepo` source): the `example.com`
test domain, the `std` sentinel, the static/metadata core, the
`golang.org/` adjustment, and otherwise the issues function applied to the
resolved repo. -/
def URL (o : String → Except String SourceMeta) (mod : String) :
    Except String (String × String) :=
  if Str.hasPre "example.com/" mod then
    .ok (trimVCSSuffix ("https://" ++ mod), trimVCSSuffix ("https://" ++ mod))
  else if mod = "std" then .ok (goSourceRepoURL, goIssuesURL)
  else
    match resolveCore o mod with
    | .error e => .error e
    | .ok (repo, bf) =>
      if Str.hasPre "golang.org/" mod then .ok (adjustGoRepoInfo repo mod)
      else .ok (repo, issuesOf bf repo)

end Modrepo

namespace Modrepo

/-- One token delivered by the XML decoder scanning the landing page
(`xml.NewDecoder` with `Strict = false`): a start element with its
attributes, an end element, or any other token (character data, comments,
directives), which the source's type switch ignores. -/
inductive Token where
  | startTag (name : String) (attrs : List (String × String)) : Token
  | endTag (name : String) : Token
  | other : Token

/-- `strings.EqualFold` restricted to simple case folding. -/
def asciiEqualFold (a b : String) : Bool := Str.lower a == Str.lower b

/-- Port of `attrValue` (lines 453-460 of the `modrepo` source): the value
of the first attribute whose name matches case-insensitively, or `""`. -/
def attrValue (attrs : List (String × String)) (name : String) : String :=
  match attrs with
  | [] => ""
  | (n, v) :: rest => if asciiEqualFold n name then v else attrValue rest name

/-- `strings.Fields`: maximal whitespace-separated substrings. -/
def fieldsStr (s : String) : List String := Str.fields s

/-- The declared-root acceptance test of `parseMeta` (line 395 of the
`modrepo` source): the tag is honoured iff its declared root is a prefix of
the import path and is either the whole path or followed by `/`. -/
def rootOk (importPath root : String) : Bool :=
  Str.hasPre root importPath &&
    (importPath.length == root.length || importPath.data.getD root.length ' ' == '/')

/-- What one honoured `meta` tag does to the scan state: either stop the
scan (`halt`, the source's `break metaScan`) or move to the next token
(`next`, the source's `continue`), with the updated candidate and error
message. -/
inductive Step where
  | halt : Option SourceMeta → String → Step
  | next : Option SourceMeta → String → Step

/-- The `meta`-element case of `parseMeta`'s token loop (lines 386-444 of
the `modrepo` source), for one start element named `meta` with attributes
`attrs`, given the current candidate `sm` and error message `err`. -/
def metaStep (importPath : String) (attrs : List (String × String))
    (sm : Option SourceMeta) (err : String) : Step :=
  if attrValue attrs "name" ≠ "go-import" ∧ attrValue attrs "name" ≠ "go-source" then
    .next sm err
  else
    let fields := fieldsStr (attrValue attrs "content")
    if fields.length < 1 then .next sm err
    else if ¬ rootOk importPath (fields.headD "") then .next sm err
    else if attrValue attrs "name" = "go-import" then
      if fields.length ≠ 3 then
        .next sm "go-import meta tag content attribute does not have three fields"
      else if fields[1]? = some "mod" then .next sm err
      else
        match sm with
        | some _ => .halt none "more than one go-import meta tag found"
        | none => .next (some ⟨fields.headD "", fields[2]?.getD ""⟩) err
    else
      if fields.length ≠ 4 then
        .next sm "go-source meta tag content attribute does not have four fields"
      else
        match sm with
        | some sm0 =>
          if sm0.repoRoot ≠ fields.headD "" then
            .halt none "import path prefixes for go-import and go-source disagree"
          else if fields[1]?.getD "" = "_" then .halt (some ⟨fields.headD "", sm0.repoURL⟩) err
          else .halt (some ⟨fields.headD "", fields[1]?.getD ""⟩) err
        | none =>
          if fields[1]?.getD "" = "_" then
            .halt none "go-source repo is underscore, but no previous go-import tag"
          else .halt (some ⟨fields.headD "", fields[1]?.getD ""⟩) err

/-- The token loop of `parseMeta` (lines 368-446): stop at end of input
(token error), at `</head>`, at `<body>`, or when a `meta` tag says so. -/
def parseMetaLoop (importPath : String) :
    List Token → Option SourceMeta → String → Option SourceMeta × String
  | [], sm, err => (sm, err)
  | .endTag name :: rest, sm, err =>
    if asciiEqualFold name "head" then (sm, err) else parseMetaLoop importPath rest sm err
  | .other :: rest, sm, err => parseMetaLoop importPath rest sm err
  | .startTag name attrs :: rest, sm, err =>
    if asciiEqualFold name "body" then (sm, err)
    else if ¬ asciiEqualFold name "meta" then parseMetaLoop importPath rest sm err
    else
      match metaStep importPath attrs sm err with
      | .halt sm2 err2 => (sm2, err2)
      | .next sm2 err2 => parseMetaLoop importPath rest sm2 err2

/-- Port of `parseMeta` (lines 363-451): scan the token stream; report a
not-found error carrying the last error message when no candidate
survived. -/
def parseMeta (importPath : String) (tokens : List Token) : Except String SourceMeta :=
  match parseMetaLoop importPath tokens none "go-import and go-source meta tags not found" with
  | (none, err) => .error err
  | (some sm, _) => .ok sm

end Modrepo

namespace Str

theorem eq_of_data_eq {x y : String} (h : x.data = y.data) : x = y := by
  cases x
  cases y
  exact congrArg String.mk h

theorem char_eq_of_toNat_eq {c d : Char} (h : c.toNat = d.toNat) : c = d := by
  obtain ⟨⟨cv⟩, hc⟩ := c
  obtain ⟨⟨dv⟩, hd⟩ := d
  have : cv = dv := BitVec.eq_of_toNat_eq h
  subst this
  rfl

theorem ltb_total {as bs : List Char} (hne : as ≠ bs) :
    ltb as bs = true ∨ ltb bs as = true := by
  induction as generalizing bs with
  | nil =>
    cases bs with
    | nil => exact absurd rfl hne
    | cons d ds => left; rfl
  | cons c cs ih =>
    cases bs with
    | nil => right; rfl
    | cons d ds =>
      rcases Nat.lt_trichotomy c.toNat d.toNat with hcd | hcd | hcd
      · left
        simp [ltb, hcd]
      · have hc : c = d := char_eq_of_toNat_eq hcd
        subst hc
        have hne2 : cs ≠ ds := fun h => hne (by rw [h])
        rcases ih hne2 with h | h
        · left
          simp [ltb, h]
        · right
          simp [ltb, h]
      · right
        simp [ltb, hcd, Nat.lt_asymm hcd]

theorem ltb_asymm {as bs : List Char} (h : ltb as bs = true) : ltb bs as = false := by
  induction as generalizing bs with
  | nil =>
    cases bs with
    | nil => cases h
    | cons d ds => rfl
  | cons c cs ih =>
    cases bs with
    | nil => cases h
    | cons d ds =>
      rcases Nat.lt_trichotomy c.toNat d.toNat with hcd | hcd | hcd
      · simp [ltb, hcd, Nat.lt_asymm hcd]
      · have hc : c = d := char_eq_of_toNat_eq hcd
        subst hc
        simp only [ltb, lt_irrefl, if_false] at h ⊢
        exact ih h
      · rw [ltb] at h
        simp [hcd, Nat.lt_asymm hcd] at h

end Str

namespace Semver

theorem cmpNum_self (x : String) : cmpNum x x = 0 := by
  simp [cmpNum]

theorem cmpIdents_self (xs : List String) : cmpIdents xs xs = 0 := by
  induction xs with
  | nil => rfl
  | cons x xs ih => simp [cmpIdents, ih]

theorem cmpPre_self (p : Option (List String)) : cmpPre p p = 0 := by
  cases p with
  | none => rfl
  | some xs => simp [cmpPre, cmpIdents_self]

theorem compareParsed_self (pv : V) : compareParsed pv pv = 0 := by
  simp [compareParsed, cmpNum_self, cmpPre_self]

/-- Reflexivity of the semantic-version comparison. -/
theorem compare_self (v : String) : compare v v = 0 := by
  unfold compare
  cases parseV v with
  | none => rfl
  | some pv => exact compareParsed_self pv

theorem cmpNum_antisymm (x y : String) : cmpNum y x = -cmpNum x y := by
  unfold cmpNum
  rcases eq_or_ne x y with rfl | hne
  · simp
  · have hd : x.data ≠ y.data := fun h => hne (Str.eq_of_data_eq h)
    rcases lt_trichotomy x.length y.length with hl | hl | hl
    · simp [hne, hne.symm, hl, hl.not_lt]
    · have hx : ¬ x.length < y.length := by omega
      have hy : ¬ y.length < x.length := by omega
      cases hlt : Str.ltb x.data y.data with
      | true =>
        have h2 : Str.ltb y.data x.data = false := Str.ltb_asymm hlt
        simp [hne, hne.symm, hx, hy, hlt, h2]
      | false =>
        have h2 : Str.ltb y.data x.data = true := by
          rcases Str.ltb_total hd with h | h
          · rw [h] at hlt; cases hlt
          · exact h
        simp [hne, hne.symm, hx, hy, hlt, h2]
    · simp [hne, hne.symm, hl, hl.not_lt]

theorem cmpIdent_antisymm (x y : String) : cmpIdent y x = -cmpIdent x y := by
  unfold cmpIdent
  rcases eq_or_ne x y with rfl | hne
  · simp
  · have hd : x.data ≠ y.data := fun h => hne (Str.eq_of_data_eq h)
    have hlt2 : Str.ltb x.data y.data = true → Str.ltb y.data x.data = false :=
      fun h => Str.ltb_asymm h
    have hlt3 : Str.ltb x.data y.data = false → Str.ltb y.data x.data = true := by
      intro h
      rcases Str.ltb_total hd with h2 | h2
      · rw [h2] at h; cases h
      · exact h2
    rcases hxy : isNumStr x with _ | _ <;> rcases hyx : isNumStr y with _ | _
    · -- both non-numeric
      cases hlt : Str.ltb x.data y.data with
      | true => simp [hne, hne.symm, hxy, hyx, hlt, hlt2 hlt]
      | false => simp [hne, hne.symm, hxy, hyx, hlt, hlt3 hlt]
    · simp [hne, hne.symm, hxy, hyx]
    · simp [hne, hne.symm, hxy, hyx]
    · -- both numeric
      rcases lt_trichotomy x.length y.length with hl | hl | hl
      · simp [hne, hne.symm, hxy, hyx, hl, hl.not_lt]
      · have hx : ¬ x.length < y.length := by omega
        have hy : ¬ y.length < x.length := by omega
        cases hlt : Str.ltb x.data y.data with
        | true => simp [hne, hne.symm, hxy, hyx, hx, hy, hlt, hlt2 hlt]
        | false => simp [hne, hne.symm, hxy, hyx, hx, hy, hlt, hlt3 hlt]
      · simp [hne, hne.symm, hxy, hyx, hl, hl.not_lt]

theorem cmpIdents_antisymm (xs ys : List String) : cmpIdents ys xs = -cmpIdents xs ys := by
  induction xs generalizing ys with
  | nil => cases ys <;> rfl
  | cons x xs ih =>
    cases ys with
    | nil => rfl
    | cons y ys =>
      simp only [cmpIdents]
      rcases eq_or_ne x y with rfl | hne
      · simpa using ih ys
      · rw [if_neg (Ne.symm hne), if_neg hne, cmpIdent_antisymm]

theorem cmpPre_antisymm (p q : Option (List String)) : cmpPre q p = -cmpPre p q := by
  cases p <;> cases q
  · rfl
  · rfl
  · rfl
  · exact cmpIdents_antisymm _ _

theorem compareParsed_antisymm (pv pw : V) :
    compareParsed pw pv = -compareParsed pv pw := by
  unfold compareParsed
  rw [cmpNum_antisymm pv.major pw.major, cmpNum_antisymm pv.minor pw.minor,
    cmpNum_antisymm pv.patch pw.patch, cmpPre_antisymm pv.pre pw.pre]
  rcases eq_or_ne (cmpNum pv.major pw.major) 0 with h1 | h1
  · rcases eq_or_ne (cmpNum pv.minor pw.minor) 0 with h2 | h2
    · rcases eq_or_ne (cmpNum pv.patch pw.patch) 0 with h3 | h3
      · simp [h1, h2, h3]
      · simp [h1, h2, h3, neg_ne_zero]
    · simp [h1, h2, neg_ne_zero]
  · simp [h1, neg_ne_zero]

/-- Antisymmetry of the semantic-version comparison. -/
theorem compare_antisymm (v w : String) : compare w v = -compare v w := by
  unfold compare
  cases hv : parseV v <;> cases hw : parseV w
  · rfl
  · rfl
  · rfl
  · exact compareParsed_antisymm _ _

end Semver

namespace Ugbt

theorem retractStep_Version (acc : Info) (r : Retract) :
    (retractStep acc r).Version = acc.Version := by
  unfold retractStep; split <;> rfl

theorem retractStep_Time (acc : Info) (r : Retract) :
    (retractStep acc r).Time = acc.Time := by
  unfold retractStep; split <;> rfl

theorem retractStep_isRetracted (acc : Info) (r : Retract) :
    (retractStep acc r).isRetracted = (acc.isRetracted || containsB acc.Version r) := by
  unfold retractStep containsB; split <;> simp_all

theorem retractStep_rationale (acc : Info) (r : Retract) :
    (retractStep acc r).retractionRationale =
      if containsB acc.Version r then r.Rationale else acc.retractionRationale := by
  unfold retractStep containsB
  split
  case isTrue h => simp [h]
  case isFalse h => simp [h]

theorem markOne_Version (rs : List Retract) (acc : Info) :
    (markOne rs acc).Version = acc.Version := by
  induction rs generalizing acc with
  | nil => rfl
  | cons r rs ih =>
    show (markOne rs (retractStep acc r)).Version = acc.Version
    rw [ih, retractStep_Version]

theorem markOne_Time (rs : List Retract) (acc : Info) :
    (markOne rs acc).Time = acc.Time := by
  induction rs generalizing acc with
  | nil => rfl
  | cons r rs ih =>
    show (markOne rs (retractStep acc r)).Time = acc.Time
    rw [ih, retractStep_Time]

theorem markOne_isRetracted (rs : List Retract) (acc : Info) :
    (markOne rs acc).isRetracted = (acc.isRetracted || rs.any (containsB acc.Version)) := by
  induction rs generalizing acc with
  | nil => simp [markOne]
  | cons r rs ih =>
    show (markOne rs (retractStep acc r)).isRetracted = _
    rw [ih, retractStep_Version, retractStep_isRetracted]
    simp [Bool.or_assoc]

theorem markOne_rationale (rs : List Retract) (acc : Info) :
    (markOne rs acc).retractionRationale =
      (rs.reverse.find? (containsB acc.Version)).elim acc.retractionRationale
        Retract.Rationale := by
  induction rs generalizing acc with
  | nil => simp [markOne]
  | cons r rs ih =>
    show (markOne rs (retractStep acc r)).retractionRationale = _
    rw [ih, retractStep_Version, retractStep_rationale]
    rw [List.reverse_cons, List.find?_append]
    cases hf : rs.reverse.find? (containsB acc.Version) with
    | some r' => simp [hf]
    | none =>
      simp only [hf, Option.none_or]
      cases hc : containsB acc.Version r <;> simp [List.find?, hc]

theorem descR_of_not_lt {x y : Info} (h : ¬ 0 < Semver.compare x.Version y.Version) :
    descR y x := by
  unfold descR
  rw [Semver.compare_antisymm]
  omega

theorem insertDesc_head? (x : Info) (l : List Info) :
    (insertDesc x l).head? = some x ∨ (insertDesc x l).head? = l.head? := by
  cases l with
  | nil => left; rfl
  | cons y ys =>
    rw [insertDesc]
    split
    · left; rfl
    · right; rfl

theorem chain'_insertDesc (x : Info) (l : List Info) (h : List.Chain' descR l) :
    List.Chain' descR (insertDesc x l) := by
  induction l with
  | nil => simp [insertDesc]
  | cons y ys ih =>
    rw [insertDesc]
    split
    case isTrue hxy => exact List.Chain'.cons (le_of_lt hxy) h
    case isFalse hxy =>
      have hhd := (List.chain'_cons'.mp h).1
      have hys := (List.chain'_cons'.mp h).2
      refine List.chain'_cons'.mpr ⟨?_, ih hys⟩
      intro z hz
      rcases insertDesc_head? x ys with hcase | hcase
      · rw [hcase] at hz
        cases hz
        exact descR_of_not_lt hxy
      · rw [hcase] at hz
        exact hhd z hz

theorem chain'_sortDesc (l : List Info) : List.Chain' descR (sortDesc l) := by
  induction l with
  | nil => simp [sortDesc]
  | cons x xs ih => exact chain'_insertDesc x (sortDesc xs) ih

theorem chain'_dedupGo (lastv : Info) (l : List Info)
    (h : List.Chain' descR (lastv :: l)) :
    List.Chain' descR (lastv :: dedupGo lastv l) := by
  induction l generalizing lastv with
  | nil => simp [dedupGo]
  | cons y ys ih =>
    rw [dedupGo]
    split
    case isTrue hy =>
      apply ih
      have := (List.chain'_cons.mp h).2
      rwa [hy] at this
    case isFalse hy =>
      exact List.Chain'.cons (List.chain'_cons.mp h).1 (ih y (List.chain'_cons.mp h).2)

theorem chain'_ne_dedupGo (lastv : Info) (l : List Info) :
    List.Chain' (fun a b : Info => a ≠ b) (lastv :: dedupGo lastv l) := by
  induction l generalizing lastv with
  | nil => simp [dedupGo]
  | cons y ys ih =>
    rw [dedupGo]
    split
    case isTrue hy => exact ih lastv
    case isFalse hy => exact List.Chain'.cons (Ne.symm hy) (ih y)

theorem chain'_dedupAdj (l : List Info) (h : List.Chain' descR l) :
    List.Chain' descR (dedupAdj l) := by
  cases l with
  | nil => simp [dedupAdj]
  | cons x xs => exact chain'_dedupGo x xs h

theorem chain'_ne_dedupAdj (l : List Info) :
    List.Chain' (fun a b : Info => a ≠ b) (dedupAdj l) := by
  cases l with
  | nil => simp [dedupAdj]
  | cons x xs => exact chain'_ne_dedupGo x xs

theorem chain'_unique (l : List Info) : List.Chain' descR (unique l) :=
  chain'_dedupAdj _ (chain'_sortDesc l)

theorem chain'_ne_unique (l : List Info) :
    List.Chain' (fun a b : Info => a ≠ b) (unique l) :=
  chain'_ne_dedupAdj _

theorem mem_insertDesc {a x : Info} {l : List Info} (h : a ∈ insertDesc x l) :
    a = x ∨ a ∈ l := by
  induction l with
  | nil => simpa [insertDesc] using h
  | cons y ys ih =>
    rw [insertDesc] at h
    split at h
    · simpa using h
    · rcases List.mem_cons.mp h with rfl | h
      · right; exact List.mem_cons_self _ _
      · rcases ih h with rfl | h
        · left; rfl
        · right; exact List.mem_cons_of_mem _ h

theorem mem_sortDesc {a : Info} {l : List Info} (h : a ∈ sortDesc l) : a ∈ l := by
  induction l with
  | nil => simp [sortDesc] at h
  | cons x xs ih =>
    rcases mem_insertDesc h with rfl | h
    · exact List.mem_cons_self _ _
    · exact List.mem_cons_of_mem _ (ih h)

theorem mem_dedupGo {a lastv : Info} {l : List Info} (h : a ∈ dedupGo lastv l) :
    a ∈ l := by
  induction l generalizing lastv with
  | nil => simp [dedupGo] at h
  | cons y ys ih =>
    rw [dedupGo] at h
    split at h
    · exact List.mem_cons_of_mem _ (ih h)
    · rcases List.mem_cons.mp h with rfl | h
      · exact List.mem_cons_self _ _
      · exact List.mem_cons_of_mem _ (ih h)

theorem mem_unique {a : Info} {l : List Info} (h : a ∈ unique l) : a ∈ l := by
  unfold unique dedupAdj at h
  cases hs : sortDesc l with
  | nil => rw [hs] at h; cases h
  | cons x xs =>
    rw [hs] at h
    rcases List.mem_cons.mp h with rfl | h
    · exact mem_sortDesc (hs ▸ List.mem_cons_self _ _)
    · exact mem_sortDesc (hs ▸ List.mem_cons_of_mem _ (mem_dedupGo h))

theorem perVersion_flags {o : Oracle} {p : String} {vs : List String}
    {is : List Info} {rs : List Retract} (h : perVersion o p vs = .ok (is, rs)) :
    ∀ x ∈ is, defaultFlags x := by
  induction vs generalizing is rs with
  | nil =>
    simp only [perVersion] at h
    cases h
    intro x hx
    cases hx
  | cons v vs ih =>
    simp only [perVersion] at h
    cases hinfo : getDoc (o.infoDoc p v) with
    | error e => rw [hinfo] at h; cases h
    | ok i =>
      rw [hinfo] at h
      cases hmod : getDoc (o.modDoc p v) with
      | error e => rw [hmod] at h; cases h
      | ok r =>
        rw [hmod] at h
        cases hrec : perVersion o p vs with
        | error e => rw [hrec] at h; cases h
        | ok pr =>
          obtain ⟨is', rs'⟩ := pr
          rw [hrec] at h
          cases h
          intro x hx
          rcases List.mem_cons.mp hx with rfl | hx
          · exact ⟨rfl, rfl⟩
          · exact ih hrec x hx

theorem fetchProxies_flags {o : Oracle} {current : String} {all : Bool}
    {ps : List String} {vs : List Info} {rs : List Retract}
    (h : fetchProxies o current all ps = .ok (vs, rs)) :
    ∀ x ∈ vs, defaultFlags x := by
  induction ps generalizing vs rs with
  | nil =>
    simp only [fetchProxies] at h
    cases h
    intro x hx
    cases hx
  | cons p ps ih =>
    simp only [fetchProxies] at h
    split at h
    · cases h
    · split at h
      · cases h
      · split at h
        · cases h
        · rename_i x1 vs1 rs1 hv x2 vs2 rs2 hr
          cases h
          intro x hx
          rcases List.mem_append.mp hx with hx | hx
          · exact perVersion_flags hv x hx
          · exact ih hr x hx

theorem markOne_ne_markOne {rs : List Retract} {a b : Info}
    (ha : defaultFlags a) (hb : defaultFlags b) (hne : a ≠ b) :
    markOne rs a ≠ markOne rs b := by
  intro heq
  apply hne
  have hV : a.Version = b.Version := by
    rw [← markOne_Version rs a, ← markOne_Version rs b, heq]
  have hT : a.Time = b.Time := by
    rw [← markOne_Time rs a, ← markOne_Time rs b, heq]
  obtain ⟨a1, a2, a3, a4⟩ := a
  obtain ⟨b1, b2, b3, b4⟩ := b
  obtain ⟨ha1, ha2⟩ := ha
  obtain ⟨hb1, hb2⟩ := hb
  simp_all

theorem chain'_descR_markList (rs : List Retract) (l : List Info)
    (h : List.Chain' descR l) : List.Chain' descR (markList rs l) := by
  unfold markList
  rw [List.chain'_map]
  apply h.imp
  intro a b hab
  unfold descR at *
  rwa [markOne_Version, markOne_Version]

theorem chain'_ne_markList (rs : List Retract) (l : List Info)
    (hflags : ∀ x ∈ l, defaultFlags x)
    (h : List.Chain' (fun a b : Info => a ≠ b) l) :
    List.Chain' (fun a b : Info => a ≠ b) (markList rs l) := by
  unfold markList
  rw [List.chain'_map]
  induction l with
  | nil => simp
  | cons a t ih =>
    cases t with
    | nil => simp
    | cons b t' =>
      rw [List.chain'_cons] at h ⊢
      refine ⟨markOne_ne_markOne (hflags a (by simp)) (hflags b (by simp)) h.1, ?_⟩
      exact ih (fun x hx => hflags x (List.mem_cons_of_mem _ hx)) h.2


theorem getDoc_ok_iff {α : Type} (f : Fetch α) :
    (∃ a, getDoc f = Except.ok a) ↔ isGood f = true := by
  cases f with
  | transportError => simp [getDoc, isGood]
  | response st body =>
    simp only [getDoc, isGood]
    split
    case isTrue h => cases body <;> simp [h]
    case isFalse h =>
      have hst : st = 200 := by omega
      subst hst
      cases body <;> simp

theorem perVersion_ok_iff (o : Oracle) (p : String) (vs : List String) :
    (∃ pr, perVersion o p vs = Except.ok pr) ↔
      ∀ v ∈ vs, isGood (o.infoDoc p v) = true ∧ isGood (o.modDoc p v) = true := by
  induction vs with
  | nil => simp [perVersion]
  | cons v vs ih =>
    constructor
    · rintro ⟨pr, hpr⟩
      simp only [perVersion] at hpr
      split at hpr
      · cases hpr
      · split at hpr
        · cases hpr
        · split at hpr
          · cases hpr
          · rename_i xi i hi xr r hr xrec is2 rs2 hrec
            intro w hw
            rcases List.mem_cons.mp hw with rfl | hw
            · exact ⟨(getDoc_ok_iff _).mp ⟨_, hi⟩, (getDoc_ok_iff _).mp ⟨_, hr⟩⟩
            · exact (ih.mp ⟨_, hrec⟩) w hw
    · intro hall
      obtain ⟨i, hi⟩ := (getDoc_ok_iff (o.infoDoc p v)).mpr (hall v (List.mem_cons_self _ _)).1
      obtain ⟨r, hr⟩ := (getDoc_ok_iff (o.modDoc p v)).mpr (hall v (List.mem_cons_self _ _)).2
      obtain ⟨pr, hpr⟩ := ih.mpr (fun w hw => hall w (List.mem_cons_of_mem _ hw))
      obtain ⟨is2, rs2⟩ := pr
      exact ⟨(⟨i.Version, i.Time, false, ""⟩ :: is2, r ++ rs2),
        by simp only [perVersion, hi, hr, hpr]⟩

theorem fetchList_ok {o : Oracle} {p : String} {lines : List String}
    (h : fetchList o p = Except.ok lines) : ∃ st, o.list p = RawFetch.response st lines := by
  unfold fetchList at h
  cases hl : o.list p with
  | transportError => rw [hl] at h; cases h
  | response st ls =>
    rw [hl] at h
    cases h
    exact ⟨st, rfl⟩

theorem fetchProxies_ok_iff (o : Oracle) (current : String) (all : Bool) (ps : List String) :
    (∃ pr, fetchProxies o current all ps = Except.ok pr) ↔
      ∀ p ∈ ps, ∃ st lines, o.list p = RawFetch.response st lines ∧
        ∀ v ∈ keptVersions all current lines,
          isGood (o.infoDoc p v) = true ∧ isGood (o.modDoc p v) = true := by
  induction ps with
  | nil => simp [fetchProxies]
  | cons p ps ih =>
    constructor
    · rintro ⟨pr, hpr⟩
      simp only [fetchProxies] at hpr
      split at hpr
      · cases hpr
      · split at hpr
        · cases hpr
        · split at hpr
          · cases hpr
          · rename_i xl lines hl xv vs1 rs1 hv xr vs2 rs2 hr
            intro q hq
            rcases List.mem_cons.mp hq with rfl | hq
            · obtain ⟨st, hst⟩ := fetchList_ok hl
              exact ⟨st, lines, hst, (perVersion_ok_iff o q _).mp ⟨_, hv⟩⟩
            · exact (ih.mp ⟨_, hr⟩) q hq
    · intro hall
      obtain ⟨st, lines, hlist, hdocs⟩ := hall p (List.mem_cons_self _ _)
      obtain ⟨⟨vs1, rs1⟩, hv⟩ := (perVersion_ok_iff o p (keptVersions all current lines)).mpr hdocs
      obtain ⟨⟨vs2, rs2⟩, hr⟩ := ih.mpr (fun q hq => hall q (List.mem_cons_of_mem _ hq))
      exact ⟨(vs1 ++ vs2, rs1 ++ rs2),
        by simp only [fetchProxies, fetchList, hlist, hv, hr]⟩

end Ugbt

namespace Modrepo

theorem adjustGoRepoInfo_pass (r m : String) (h : csKnownMirror m = false) :
    adjustGoRepoInfo r m = (r, r) := by
  unfold adjustGoRepoInfo
  unfold csKnownMirror at h
  split_ifs at h ⊢ <;> simp_all

end Modrepo

/-!
The claims.  Each claim is settled by one theorem; a theorem with
hypotheses also has a witness instantiating it at a concrete input, and a
claim the code falsifies has a counterexample evaluating the embedding at a
concrete input.
-/

/-- Oracle for C1: two mirrors both serve version `v1.0.0`, whose `.info`
documents carry different timestamps. -/
def c1Oracle : Ugbt.Oracle :=
  { list := fun _ => .response 200 ["v1.0.0"],
    infoDoc := fun p _ => .response 200 (.ok ⟨"v1.0.0", if p = "m1" then 1 else 2⟩),
    modDoc := fun _ _ => .response 200 (.ok []) }

/-- C1 fails as stated: when the same version is served by two mirrors with
differing `.info` timestamps, `unique` — which drops a record only when it
equals the previously kept record in all four fields — keeps both records,
so the returned list carries two records with equal `Version` and is not
strictly descending. -/
theorem c1_counterexample :
    Ugbt.availableVersions c1Oracle ["m1", "m2"] "v1.0.0" false =
      .ok [⟨"v1.0.0", 2, false, ""⟩, ⟨"v1.0.0", 1, false, ""⟩] ∧
    (⟨"v1.0.0", 2, false, ""⟩ : Ugbt.Info).Version =
      (⟨"v1.0.0", 1, false, ""⟩ : Ugbt.Info).Version ∧
    (⟨"v1.0.0", 2, false, ""⟩ : Ugbt.Info) ≠ ⟨"v1.0.0", 1, false, ""⟩ ∧
    ¬ 0 < Semver.compare "v1.0.0" "v1.0.0" :=
  ⟨by decide, rfl, by decide, by decide⟩

/-- C1 (amended): every version list returned by `availableVersions` in the
general case is non-strictly descending under semantic-version comparison
of the `Version` fields, and no two adjacent records are equal as whole
records; records with equal `Version` but differing timestamps may however
both appear. -/
theorem c1_claim (o : Ugbt.Oracle) (ps : List String) (current : String) (all : Bool)
    (l : List Ugbt.Info)
    (h : Ugbt.availableVersions o ps current all = .ok l) :
    List.Chain' (fun a b : Ugbt.Info => 0 ≤ Semver.compare a.Version b.Version) l ∧
    List.Chain' (fun a b : Ugbt.Info => a ≠ b) l := by
  unfold Ugbt.availableVersions at h
  split at h
  · cases h
  · rename_i x vs rs hpr
    cases h
    constructor
    · exact Ugbt.chain'_descR_markList rs (Ugbt.unique vs) (Ugbt.chain'_unique vs)
    · exact Ugbt.chain'_ne_markList rs (Ugbt.unique vs)
        (fun y hy => Ugbt.fetchProxies_flags hpr y (Ugbt.mem_unique hy))
        (Ugbt.chain'_ne_unique vs)

/-- Witness for C1 at the two-mirror oracle. -/
theorem c1_witness :
    List.Chain' (fun a b : Ugbt.Info => 0 ≤ Semver.compare a.Version b.Version)
      [⟨"v1.0.0", 2, false, ""⟩, ⟨"v1.0.0", 1, false, ""⟩] ∧
    List.Chain' (fun a b : Ugbt.Info => a ≠ b)
      [⟨"v1.0.0", 2, false, ""⟩, ⟨"v1.0.0", 1, false, ""⟩] :=
  c1_claim c1Oracle ["m1", "m2"] "v1.0.0" false
    [⟨"v1.0.0", 2, false, ""⟩, ⟨"v1.0.0", 1, false, ""⟩] (by decide)

/-- C2: a record decoded with the zero flags is marked retracted iff its
`Version` lies within the closed interval `[Low, High]` of at least one
discovered range under semantic-version comparison; a record whose version
equals `Low` or `High` of a well-formed range (`Low ≤ High`) is retracted;
a record strictly below `Low` or strictly above `High` of every range is
not retracted. -/
theorem c2_claim (rs : List Ugbt.Retract) (x : Ugbt.Info)
    (hflag : x.isRetracted = false) :
    ((Ugbt.markOne rs x).isRetracted = true ↔
      ∃ r ∈ rs, 0 ≤ Semver.compare x.Version r.Low ∧ Semver.compare x.Version r.High ≤ 0) ∧
    (∀ r ∈ rs, Semver.compare r.Low r.High ≤ 0 →
      (x.Version = r.Low ∨ x.Version = r.High) →
      (Ugbt.markOne rs x).isRetracted = true) ∧
    ((∀ r ∈ rs, Semver.compare x.Version r.Low < 0 ∨ 0 < Semver.compare x.Version r.High) →
      (Ugbt.markOne rs x).isRetracted = false) := by
  have hiff : (Ugbt.markOne rs x).isRetracted = true ↔
      ∃ r ∈ rs, 0 ≤ Semver.compare x.Version r.Low ∧ Semver.compare x.Version r.High ≤ 0 := by
    rw [Ugbt.markOne_isRetracted, hflag]
    simp [Ugbt.containsB, List.any_eq_true]
  refine ⟨hiff, ?_, ?_⟩
  · intro r hr hwf hor
    apply hiff.mpr
    refine ⟨r, hr, ?_⟩
    rcases hor with hv | hv
    · rw [hv]
      exact ⟨by rw [Semver.compare_self], hwf⟩
    · rw [hv]
      constructor
      · rw [Semver.compare_antisymm]
        omega
      · rw [Semver.compare_self]
  · intro hall
    cases hb : (Ugbt.markOne rs x).isRetracted with
    | false => rfl
    | true =>
      obtain ⟨r, hr, h1, h2⟩ := hiff.mp hb
      rcases hall r hr with h3 | h3 <;> omega

/-- Witness for C2: a record exactly at a range's `Low` bound is retracted. -/
theorem c2_witness :
    (Ugbt.markOne [⟨"v1.0.0", "v2.0.0", "security"⟩]
      ⟨"v1.0.0", 0, false, ""⟩).isRetracted = true :=
  (c2_claim [⟨"v1.0.0", "v2.0.0", "security"⟩] ⟨"v1.0.0", 0, false, ""⟩ rfl).2.1
    ⟨"v1.0.0", "v2.0.0", "security"⟩ (List.mem_cons_self _ _) (by decide) (Or.inl rfl)

/-- Oracle for C3: the `@v/list` document comes back with status 404. -/
def c3Oracle : Ugbt.Oracle :=
  { list := fun _ => .response 404 ["v2.0.0"],
    infoDoc := fun _ _ => .response 200 (.ok ⟨"v2.0.0", 5⟩),
    modDoc := fun _ _ => .response 200 (.ok []) }

/-- C3 fails as stated: the per-mirror `@v/list` fetch never inspects the
HTTP status (it is built and executed without `get`): a 404 list response
is line-scanned like any other, and the call succeeds — it even returns the
versions scanned from the 404 body. -/
theorem c3_counterexample :
    c3Oracle.list "p" = .response 404 ["v2.0.0"] ∧
    Ugbt.availableVersions c3Oracle ["p"] "v1.0.0" true =
      .ok [⟨"v2.0.0", 5, false, ""⟩] :=
  ⟨rfl, by decide⟩

/-- C3 (amended): resolution succeeds iff every mirror's `@v/list` fetch got
an HTTP response of any status whatsoever, and every retained version's
`.info` and `.mod` fetches returned 200 with bodies the decoders accept;
contrapositively, any transport error, and any non-200 status or decode
failure on a `.info` or `.mod` document, aborts the whole call with an
error and no version list. -/
theorem c3_claim (o : Ugbt.Oracle) (ps : List String) (current : String) (all : Bool) :
    (∃ l, Ugbt.availableVersions o ps current all = .ok l) ↔
      ∀ p ∈ ps, ∃ st lines, o.list p = .response st lines ∧
        ∀ v ∈ Ugbt.keptVersions all current lines,
          Ugbt.isGood (o.infoDoc p v) = true ∧ Ugbt.isGood (o.modDoc p v) = true := by
  rw [← Ugbt.fetchProxies_ok_iff]
  unfold Ugbt.availableVersions
  cases h : Ugbt.fetchProxies o current all ps with
  | error e => simp [h]
  | ok pr =>
    obtain ⟨vs, rs⟩ := pr
    simp [h]

/-- C4: for a head containing a matching go-import tag (of non-`mod` kind)
followed by a go-source tag with the same declared root whose repo field is
the placeholder `_`, the scan resolves to the go-import tag's repo URL; and
a head with two matching go-import tags (neither of kind `mod`) resolves to
the not-found error instead of either URL. -/
theorem c4_claim (importPath root vcs repoURL ca cb ht dt : String)
    (h1 : Modrepo.fieldsStr ca = [root, vcs, repoURL])
    (h2 : vcs ≠ "mod")
    (hroot : Modrepo.rootOk importPath root = true)
    (h3 : Modrepo.fieldsStr cb = [root, "_", ht, dt]) :
    Modrepo.parseMeta importPath
      [.startTag "meta" [("name", "go-import"), ("content", ca)],
       .startTag "meta" [("name", "go-source"), ("content", cb)]] = .ok ⟨root, repoURL⟩ ∧
    (∀ cc cd vcs2 url1 url2 : String,
      Modrepo.fieldsStr cc = [root, vcs, url1] →
      Modrepo.fieldsStr cd = [root, vcs2, url2] → vcs2 ≠ "mod" →
      Modrepo.parseMeta importPath
        [.startTag "meta" [("name", "go-import"), ("content", cc)],
         .startTag "meta" [("name", "go-import"), ("content", cd)]] =
        .error "more than one go-import meta tag found") := by
  constructor
  · simp +decide [Modrepo.parseMeta, Modrepo.parseMetaLoop, Modrepo.metaStep,
      Modrepo.attrValue, Modrepo.asciiEqualFold, h1, h2, h3, hroot]
  · intro cc cd vcs2 url1 url2 g1 g2 g3
    simp +decide [Modrepo.parseMeta, Modrepo.parseMetaLoop, Modrepo.metaStep,
      Modrepo.attrValue, Modrepo.asciiEqualFold, g1, g2, g3, h2, hroot]

/-- Witness for C4: a concrete two-tag document. -/
theorem c4_witness :
    Modrepo.parseMeta "example.net/pkg"
      [.startTag "meta" [("name", "go-import"),
        ("content", "example.net/pkg git https://example.net/git/pkg")],
       .startTag "meta" [("name", "go-source"),
        ("content", "example.net/pkg _ https://h https://d")]] =
      .ok ⟨"example.net/pkg", "https://example.net/git/pkg"⟩ :=
  (c4_claim "example.net/pkg" "example.net/pkg" "git" "https://example.net/git/pkg"
    "example.net/pkg git https://example.net/git/pkg"
    "example.net/pkg _ https://h https://d" "https://h" "https://d"
    (by decide) (by decide) (by decide) (by decide)).1

/-- C5 fails as stated: for `example.org/git/proj.git` the catch-all rule's
`repo` capture group ends before the `\.(bzr|fossil|git|hg|svn)` suffix, so
the resolved URL is `https://example.org/git/proj` — the `.git` suffix is
gone even though `trimVCSSuffix` never touched it. -/
theorem c5_counterexample :
    Modrepo.URL (fun _ => .error "unused") "example.org/git/proj.git" =
      .ok ("https://example.org/git/proj", "https://example.org/git/proj") ∧
    Str.hasSuf ".git" "https://example.org/git/proj" = false :=
  ⟨by decide, by decide⟩

/-- C5 (amended): the catch-all rule matches `example.org/git/proj.git`
with `repo` capture `example.org/git/proj` (the VCS suffix is excluded by
the capture group itself), so the resolved repo URL carries no `.git`;
`trimVCSSuffix` itself never trims for providers other than the two named
ones. -/
theorem c5_claim :
    Modrepo.matchStaticIdx "example.org/git/proj.git" =
      some ("example.org/git/proj", 18) ∧
    Modrepo.URL (fun _ => .error "unused") "example.org/git/proj.git" =
      .ok ("https://example.org/git/proj", "https://example.org/git/proj") ∧
    (∀ s : String,
      (Str.hasPre "https://github.com/" s || Str.hasPre "https://gitlab.com/" s) = false →
      Modrepo.trimVCSSuffix s = s) := by
  refine ⟨by decide, by decide, ?_⟩
  intro s hs
  unfold Modrepo.trimVCSSuffix
  split
  · rfl
  · rw [hs]
    simp

/-- The metadata oracle for C6: the landing page declares a GitHub repo. -/
def c6Meta : String → Except String Modrepo.SourceMeta :=
  fun _ => .ok ⟨"golang.org/a", "https://github.com/x/y"⟩

/-- C6 fails as stated: on the pass-through branch `adjustGoRepoInfo`
returns `(repo, repo)`, so `URL` yields the repo URL in place of the issues
URL that the earlier steps produced (here the github rule's
`.../issues`). -/
theorem c6_counterexample :
    Modrepo.resolveCore c6Meta "golang.org/a" = .ok ("https://github.com/x/y", some 0) ∧
    Modrepo.issuesOf (some 0) "https://github.com/x/y" = "https://github.com/x/y/issues" ∧
    Modrepo.URL c6Meta "golang.org/a" =
      .ok ("https://github.com/x/y", "https://github.com/x/y") ∧
    ("https://github.com/x/y" : String) ≠ "https://github.com/x/y/issues" :=
  ⟨by decide, by decide, by decide, by decide⟩

/-- C6 (amended): for a `golang.org/` path whose first two segments do not
name a known `cs.opensource.google` mirror, `URL` returns the previously
resolved repo URL unchanged in both positions: the issues URL becomes the
repo URL itself, and the issues-URL function of the earlier static or
metadata step is not applied. -/
theorem c6_claim (o : String → Except String Modrepo.SourceMeta) (mod : String)
    (r : String) (bf : Option Nat)
    (hg : Str.hasPre "golang.org/" mod = true)
    (hex : Str.hasPre "example.com/" mod = false)
    (hstd : mod ≠ "std")
    (hknown : Modrepo.csKnownMirror mod = false)
    (hres : Modrepo.resolveCore o mod = .ok (r, bf)) :
    Modrepo.URL o mod = .ok (r, r) := by
  unfold Modrepo.URL
  rw [hex, hres, hg]
  simp only [Bool.false_eq_true, if_false, if_true]
  rw [if_neg hstd]
  rw [Modrepo.adjustGoRepoInfo_pass r mod hknown]

/-- Witness for C6 at the concrete oracle. -/
theorem c6_witness :
    Modrepo.URL c6Meta "golang.org/a" =
      .ok ("https://github.com/x/y", "https://github.com/x/y") :=
  c6_claim c6Meta "golang.org/a" "https://github.com/x/y" (some 0)
    (by decide) (by decide) (by decide) (by decide) (by decide)

/-- C7: a listed version is retained iff `includeAll` is set or its
`semverCompare` against the current version is non-negative; with
`includeAll` every line is retained; `semverCompare` is the semantic
comparison after `go`→`v` normalisation of either operand, under which
toolchain-style versions compare correctly. -/
theorem c7_claim (all : Bool) (current : String) (lines : List String) (v : String) :
    (v ∈ Ugbt.keptVersions all current lines ↔
      v ∈ lines ∧ (all = true ∨ 0 ≤ Ugbt.semverCompare v current)) ∧
    Ugbt.keptVersions true current lines = lines ∧
    Ugbt.semverCompare v current =
      Semver.compare (Ugbt.replacePre v "go" "v") (Ugbt.replacePre current "go" "v") ∧
    0 < Ugbt.semverCompare "go1.21.0" "go1.9.0" := by
  refine ⟨?_, ?_, rfl, by decide⟩
  · unfold Ugbt.keptVersions
    rw [List.mem_filter]
    simp
  · unfold Ugbt.keptVersions
    simp

/-- C8 fails as stated: the `@v/list` request is built with
`http.NewRequest`, not `http.NewRequestWithContext`, so it is not bound to
the caller's cancellable context and the caller's deadline cannot abort
it. -/
theorem c8_counterexample :
    (Ugbt.listRequest "https://proxy.golang.org/example.com/mod/@v/list").boundToCallerCtx =
      false := rfl

/-- C8 (amended): every request built by `get` (the `.info`, `.mod` and
standard-library index fetches) and by `doURL` (both metadata landing-page
attempts) carries the caller's context, but the per-mirror `@v/list`
request does not. -/
theorem c8_claim (u m : String) :
    (Ugbt.listRequest u).boundToCallerCtx = false ∧
    (Ugbt.getRequest u).boundToCallerCtx = true ∧
    (Ugbt.doURLRequest m u).boundToCallerCtx = true :=
  ⟨rfl, rfl, rfl⟩

/-- C9: the rationale attached to a record is that of the last range, in
accumulation order, containing its version (each later matching range
overwrites the earlier rationale), and the record is marked retracted iff
some accumulated range contains its version. -/
theorem c9_claim (rs : List Ugbt.Retract) (x : Ugbt.Info) :
    (Ugbt.markOne rs x).retractionRationale =
      (rs.reverse.find? (Ugbt.containsB x.Version)).elim x.retractionRationale
        Ugbt.Retract.Rationale ∧
    (Ugbt.markOne rs x).isRetracted = (x.isRetracted || rs.any (Ugbt.containsB x.Version)) :=
  ⟨Ugbt.markOne_rationale rs x, Ugbt.markOne_isRetracted rs x⟩

/-- C10: a go-import or go-source tag whose declared root is a string
prefix of the import path but neither the whole path nor followed by `/`
is skipped: the scan continues exactly as if the tag were absent. -/
theorem c10_claim (importPath n content root : String) (more : List String)
    (rest : List Modrepo.Token) (sm : Option Modrepo.SourceMeta) (err : String)
    (hn : n = "go-import" ∨ n = "go-source")
    (hf : Modrepo.fieldsStr content = root :: more)
    (hpre : Str.hasPre root importPath = true)
    (hlen : importPath.length ≠ root.length)
    (hch : importPath.data.getD root.length ' ' ≠ '/') :
    Modrepo.parseMetaLoop importPath
      (.startTag "meta" [("name", n), ("content", content)] :: rest) sm err =
      Modrepo.parseMetaLoop importPath rest sm err := by
  have hro : Modrepo.rootOk importPath root = false := by
    unfold Modrepo.rootOk
    rw [hpre]
    simp only [Bool.true_and, Bool.or_eq_false_iff, beq_eq_false_iff_ne]
    exact ⟨hlen, hch⟩
  rcases hn with rfl | rfl <;>
    simp +decide [Modrepo.parseMetaLoop, Modrepo.metaStep, Modrepo.attrValue,
      Modrepo.asciiEqualFold, hf, hro]

/-- Witness for C10: `example.com/foo` against import path
`example.com/foobar`. -/
theorem c10_witness :
    Modrepo.parseMetaLoop "example.com/foobar"
      [.startTag "meta" [("name", "go-import"),
        ("content", "example.com/foo git https://x")]] none "m" = (none, "m") :=
  (c10_claim "example.com/foobar" "go-import" "example.com/foo git https://x"
    "example.com/foo" ["git", "https://x"] [] none "m" (Or.inl rfl) (by decide)
    (by decide) (by decide) (by decide)).trans (by decide)
